import Mathlib

/-! Module:
Shallow embedding of the LifeLog event/attachment core:
`src/app/services/event_service.py`, `src/app/api/attachments.py`,
`src/app/api/export.py`, `src/app/services/storage_service.py`,
`src/app/schemas.py`, `src/app/models.py`, `src/app/config.py`.

Datetimes are modelled as `Int`, file bytes as `List UInt8`, the JSONB
metadata document as an opaque association list.  The metadata store is a
`DB` value (the committed table contents); uncommitted session changes are
not part of the state, matching transaction rollback on an unhandled error.
The object store is the list of keys currently holding an object.
-/

/-- Opaque structured metadata document (the `metadata` JSONB column). -/
abbrev MetaDoc := List (String × String)

/-- A committed row of the `events` table (`models.Event`). -/
structure Event where
  id : Nat
  created_at : Int
  timestamp : Int
  title : String
  description : Option String
  tags : Option (List String)
  metadata_json : Option MetaDoc

deriving instance DecidableEq for Event

/-- A committed row of the `attachments` table (`models.Attachment`). -/
structure Attachment where
  id : Nat
  event_id : Nat
  key : String
  filename : String
  content_type : String
  size_bytes : Nat
  uploaded_at : Int

deriving instance DecidableEq for Attachment

/-- Committed state of the metadata store.  `nextAttachmentId` models the
`attachments` primary-key sequence. -/
structure DB where
  events : List Event
  attachments : List Attachment
  nextAttachmentId : Nat

deriving instance DecidableEq for DB

/-- Object-store state: the keys currently holding an object.  Keys are
generated from 128-bit random identifiers, so a `put` of a fresh key is
modelled as consing it (collisions are outside the model, as in the spec's
global-uniqueness assumption); `remove_object` erases the key. -/
abbrev Storage := List String

/-- The limits the core reads from `config.Settings`. -/
structure Settings where
  FILE_MAX_BYTES : Nat
  ATTACHMENT_MAX_PER_EVENT : Nat
  ALLOWED_MIME_TYPES : List String

/-- The defaults declared in `config.py`. -/
def defaultSettings : Settings :=
  { FILE_MAX_BYTES := 10485760
    ATTACHMENT_MAX_PER_EVENT := 10
    ALLOWED_MIME_TYPES := ["image/jpeg", "image/png", "image/webp",
      "application/pdf", "text/plain", "text/markdown", "text/csv", "video/mp4"] }

/-- Embeds `schemas.SortOrder`. -/
inductive SortOrder where
  | newest
  | oldest

deriving instance DecidableEq for SortOrder

/-- ASCII lowering, as `lower()` applied by the ILIKE comparison. -/
def lowerChars (s : List Char) : List Char := s.map Char.toLower

/-- SQL LIKE pattern matching over characters: `%` matches any sequence (the
rest of the pattern must match some suffix of the string), `_` matches any
single character, a backslash escapes the following pattern character
(PostgreSQL's default escape).  Any other pattern character matches
itself. -/
def likeMatch : List Char → List Char → Bool
  | [], s => s.isEmpty
  | '%' :: p, s => s.tails.any (fun t => likeMatch p t)
  | '_' :: p, s =>
    match s with
    | [] => false
    | _ :: s2 => likeMatch p s2
  | '\\' :: c :: p, s =>
    match s with
    | [] => false
    | c2 :: s2 => c2 == c && likeMatch p s2
  | c :: p, s =>
    match s with
    | [] => false
    | c2 :: s2 => c2 == c && likeMatch p s2

/-- The text filter issued by `list_events`:
`title ILIKE '%' || query || '%' OR description ILIKE '%' || query || '%'`.
ILIKE lower-cases both sides; the query is interpolated into the pattern
unescaped.  A NULL description makes the right disjunct NULL (not true), so
such a row matches only through its title. -/
def ilikeText (q : String) (e : Event) : Bool :=
  let pat := lowerChars ('%' :: (q.toList ++ ['%']))
  likeMatch pat (lowerChars e.title.toList) ||
    match e.description with
    | none => false
    | some d => likeMatch pat (lowerChars d.toList)

/-- PostgreSQL array-overlap `&&` on the `tags` column: true when the two
arrays share an element; a NULL column yields no match. -/
def tagsOverlap (etags : Option (List String)) (fil : List String) : Bool :=
  match etags with
  | none => false
  | some ts => ts.any (fun t => fil.contains t)

/-- The WHERE clause assembled by `EventService.list_events`: each filter is
attached only when its argument is truthy in Python, so a `None`/empty tag
list, a `None` bound, and a `None`/empty query contribute no condition. -/
def matchesFilters (query : Option String) (tags : Option (List String))
    (start_date end_date : Option Int) (e : Event) : Bool :=
  (match tags with
   | none => true
   | some [] => true
   | some fil => tagsOverlap e.tags fil) &&
  (match start_date with
   | none => true
   | some s => decide (s ≤ e.timestamp)) &&
  (match end_date with
   | none => true
   | some en => decide (e.timestamp ≤ en)) &&
  (match query with
   | none => true
   | some q => if q = "" then true else ilikeText q e)

/-- Comparator for `ORDER BY timestamp DESC`: a comes no later than b when its timestamp is
at least b's. -/
def newestRel (a b : Event) : Prop := b.timestamp ≤ a.timestamp

/-- Comparator for `ORDER BY timestamp ASC`. -/
def oldestRel (a b : Event) : Prop := a.timestamp ≤ b.timestamp

instance : DecidableRel newestRel := fun a b => Int.decLe b.timestamp a.timestamp

instance : DecidableRel oldestRel := fun a b => Int.decLe a.timestamp b.timestamp

instance : IsTotal Event newestRel := ⟨fun a b => le_total b.timestamp a.timestamp⟩

instance : IsTrans Event newestRel :=
  ⟨fun _ _ _ hab hbc => le_trans hbc hab⟩

instance : IsTotal Event oldestRel := ⟨fun a b => le_total a.timestamp b.timestamp⟩

instance : IsTrans Event oldestRel :=
  ⟨fun _ _ _ hab hbc => le_trans hab hbc⟩

/-- Embeds `EventService.list_events` over the committed event rows: build the
filtered set, take its cardinality before pagination, `ORDER BY timestamp`
(the query orders by timestamp only; equal timestamps are returned in the
underlying row order, modelled by a stable sort over the table sequence),
then apply `OFFSET skip LIMIT limit`.  Returns (page, total). -/
def list_events (rows : List Event) (skip limit : Nat) (query : Option String)
    (tags : Option (List String)) (start_date end_date : Option Int)
    (sort : SortOrder) : List Event × Nat :=
  let filtered := rows.filter (matchesFilters query tags start_date end_date)
  let total := filtered.length
  let sorted :=
    match sort with
    | .newest => List.insertionSort newestRel filtered
    | .oldest => List.insertionSort oldestRel filtered
  ((sorted.drop skip).take limit, total)

/-- The attachment rows of one event (the `Event.attachments` relationship,
loaded via `selectinload`). -/
def eventAttachments (db : DB) (event_id : Nat) : List Attachment :=
  db.attachments.filter (fun a => a.event_id == event_id)

/-- Embeds `EventService.get_event`: the event row by primary key, or NotFound. -/
def get_event (db : DB) (event_id : Nat) : Option Event :=
  db.events.find? (fun e => e.id == event_id)

/-- Embeds `schemas.EventUpdate` seen through `model_dump(exclude_unset=True)`: the
outer `Option` is presence of the field in the request body.  For the
nullable columns the inner `Option` is the value, so an explicit JSON null
is `some none`.  `title` and `timestamp` are NOT NULL columns, whose updates
commit only with a non-null value, so only those are modelled for them. -/
structure EventUpdate where
  title : Option String
  description : Option (Option String)
  tags : Option (Option (List String))
  timestamp : Option Int
  metadata_json : Option (Option MetaDoc)

/-- The update body with no field present. -/
def emptyUpdate : EventUpdate :=
  { title := none, description := none, tags := none,
    timestamp := none, metadata_json := none }

/-- The `setattr(db_event, key, value)` loop over the fields present in the
partial body; absent fields are left untouched. -/
def applyUpdate (u : EventUpdate) (e : Event) : Event :=
  { e with
    title := u.title.getD e.title
    description := u.description.getD e.description
    tags := u.tags.getD e.tags
    timestamp := u.timestamp.getD e.timestamp
    metadata_json := u.metadata_json.getD e.metadata_json }

/-- Embeds `EventService.update_event`: NotFound when the id is absent, else apply
the present fields to the row and commit it in place. -/
def update_event (db : DB) (event_id : Nat) (u : EventUpdate) :
    Option (Event × DB) :=
  match get_event db event_id with
  | none => none
  | some e =>
    some (applyUpdate u e,
      { db with
        events := db.events.map
          (fun x => if x.id == event_id then applyUpdate u x else x) })

/-- Embeds `EventService.delete_event`: NotFound leaves everything unchanged;
otherwise collect the attachment keys, delete the event row (its attachment
rows go with it by cascade) and commit, then try each storage delete with
exceptions suppressed (`contextlib.suppress`): `deleteOk k = false` models a
failing `remove_object` whose object stays behind. -/
def delete_event (db : DB) (sto : Storage) (deleteOk : String → Bool)
    (event_id : Nat) : Bool × DB × Storage :=
  match get_event db event_id with
  | none => (false, db, sto)
  | some _ =>
    let keys := (eventAttachments db event_id).map (fun a => a.key)
    let db2 : DB :=
      { db with
        events := db.events.filter (fun e => !(e.id == event_id))
        attachments := db.attachments.filter (fun a => !(a.event_id == event_id)) }
    let sto2 := keys.foldl (fun s k => if deleteOk k then s.erase k else s) sto
    (true, db2, sto2)

/-- Embeds `attachments.get_attachment_url`: NotFound unless a metadata row with
this key exists, else a presigned GET URL for the key (15-minute TTL; the
URL string itself is opaque to the claims). -/
def get_attachment_url (db : DB) (key : String) : Option String :=
  match db.attachments.find? (fun a => a.key == key) with
  | none => none
  | some _ => some ("presigned-get:" ++ key)

/-- One file of an upload batch (FastAPI `UploadFile`): `file.read()` yields
`content`, whose length is the validated size. -/
structure UploadFile where
  filename : String
  content_type : String
  content : List UInt8

deriving instance DecidableEq for UploadFile

/-- The error outcomes of `upload_attachments` (HTTP 404/400/400/400/500 and
an exception escaping from the cleanup loop). -/
inductive UploadError where
  | notFound
  | quotaExceeded
  | unsupportedType (content_type : String)
  | tooLarge (filename : String)
  | persistence
  | storageDeleteFailed (key : String)

deriving instance DecidableEq for UploadError

/-- An `Attachment` ORM object staged with `db.add` but not yet committed
(`id` and `uploaded_at` still unassigned). -/
structure PendingAtt where
  event_id : Nat
  key : String
  filename : String
  content_type : String
  size_bytes : Nat

deriving instance DecidableEq for PendingAtt

/-- The per-file loop of `upload_attachments`, in input order: validate the
MIME type against the allow-list, read the bytes, validate the size, then
immediately upload to the object store under a fresh key (`keySupply i` is
the uuid-generated key of the i-th file) and stage a metadata row.  A
validation failure aborts the loop at once, leaving the objects already
uploaded in the store. -/
def processFiles (cfg : Settings) (keySupply : Nat → String) (event_id : Nat) :
    List UploadFile → Nat → Storage →
      Except UploadError (List PendingAtt) × Storage
  | [], _, sto => (.ok [], sto)
  | f :: fs, i, sto =>
    if !(cfg.ALLOWED_MIME_TYPES.contains f.content_type) then
      (.error (.unsupportedType f.content_type), sto)
    else if cfg.FILE_MAX_BYTES < f.content.length then
      (.error (.tooLarge f.filename), sto)
    else
      match processFiles cfg keySupply event_id fs (i + 1) (keySupply i :: sto) with
      | (.error e, s) => (.error e, s)
      | (.ok rest, s) =>
        (.ok ({ event_id := event_id, key := keySupply i, filename := f.filename,
                content_type := f.content_type,
                size_bytes := f.content.length } :: rest), s)

/-- The cleanup loop of the commit-failure handler: delete each uploaded
object in batch order.  The loop body has no exception handling, so the
first failing delete (`deleteOk k = false`) propagates out of the handler
and the remaining objects are not touched. -/
def compensate (deleteOk : String → Bool) :
    List PendingAtt → Storage → Option String × Storage
  | [], sto => (none, sto)
  | a :: rest, sto =>
    if deleteOk a.key then compensate deleteOk rest (sto.erase a.key)
    else (some a.key, sto)

/-- Embeds `attachments.upload_attachments`.  `commitOk` is the outcome of the
single batch metadata transaction, `deleteOk` the outcomes of the storage
deletes attempted during compensation, `now` the server clock at insert.
Returns (result, committed database, object store). -/
def upload_attachments (cfg : Settings) (db : DB) (sto : Storage)
    (keySupply : Nat → String) (commitOk : Bool) (deleteOk : String → Bool)
    (now : Int) (event_id : Nat) (files : List UploadFile) :
    Except UploadError (List Attachment) × DB × Storage :=
  match get_event db event_id with
  | none => (.error .notFound, db, sto)
  | some _ =>
    let existing := (eventAttachments db event_id).length
    if cfg.ATTACHMENT_MAX_PER_EVENT < existing + files.length then
      (.error .quotaExceeded, db, sto)
    else
      match processFiles cfg keySupply event_id files 0 sto with
      | (.error e, sto2) => (.error e, db, sto2)
      | (.ok pend, sto2) =>
        if commitOk then
          let newAtts := pend.enum.map (fun p =>
            { id := db.nextAttachmentId + p.1, event_id := p.2.event_id,
              key := p.2.key, filename := p.2.filename,
              content_type := p.2.content_type, size_bytes := p.2.size_bytes,
              uploaded_at := now })
          (.ok newAtts,
           { db with
             attachments := db.attachments ++ newAtts
             nextAttachmentId := db.nextAttachmentId + newAtts.length },
           sto2)
        else
          match compensate deleteOk pend sto2 with
          | (none, sto3) => (.error .persistence, db, sto3)
          | (some k, sto3) => (.error (.storageDeleteFailed k), db, sto3)

/-- Embeds `schemas.EventRead`, the export/response serialization shape: an event
row together with its attachments collection. -/
structure EventRead where
  id : Nat
  created_at : Int
  timestamp : Int
  title : String
  description : Option String
  tags : Option (List String)
  metadata_json : Option MetaDoc
  attachments : List Attachment

deriving instance DecidableEq for EventRead

/-- Serialization failure: reading a relationship attribute that was never
eagerly loaded raises on an async session (SQLAlchemy refuses the implicit
synchronous lazy load). -/
inductive SerializeError where
  | lazyLoadNotAllowed

deriving instance DecidableEq for SerializeError

/-- Serializing an ORM event into `EventRead` reads `event.attachments`;
`loaded` is the eagerly loaded collection, if any (`selectinload` or
`refresh` with attachments would supply it). -/
def serializeEventRead (e : Event) (loaded : Option (List Attachment)) :
    Except SerializeError EventRead :=
  match loaded with
  | none => .error .lazyLoadNotAllowed
  | some atts =>
    .ok { id := e.id, created_at := e.created_at, timestamp := e.timestamp,
          title := e.title, description := e.description, tags := e.tags,
          metadata_json := e.metadata_json, attachments := atts }

/-- Embeds `export.export_data`: `select(Event).order_by(Event.timestamp.desc())`
with no pagination and no eager-loading option, then serialization of every
row to `EventRead` via the `list[EventRead]` response model — which reads
each row's (unloaded) attachments collection. -/
def export_data (db : DB) : Except SerializeError (List EventRead) :=
  (List.insertionSort newestRel db.events).mapM
    (fun e => serializeEventRead e none)

/-!  Spec-side predicates for the List operation, used for refinement. -/

/-- Modelled from the spec's List filter description (with the amended text
match): the event's tag set intersects a non-empty filter set non-emptily,
the start/end bounds are inclusive, and a non-empty text query is applied as
the ILIKE pattern the code issues. -/
def specListMatch (query : Option String) (tags : Option (List String))
    (start_date end_date : Option Int) (e : Event) : Prop :=
  (match tags with
   | some (t :: rest) => ∃ x ∈ e.tags.getD [], x ∈ t :: rest
   | _ => True) ∧
  (match start_date with
   | some s => s ≤ e.timestamp
   | none => True) ∧
  (match end_date with
   | some en => e.timestamp ≤ en
   | none => True) ∧
  (match query with
   | some q => q = "" ∨ ilikeText q e = true
   | none => True)

/-- The original spec-side text predicate: case-insensitive substring match
against title or description. -/
def specTextSubstr (q : String) (e : Event) : Prop :=
  lowerChars q.toList <:+: lowerChars e.title.toList ∨
    ∃ d, e.description = some d ∧ lowerChars q.toList <:+: lowerChars d.toList

/-- Decidability of the tag clause of `specListMatch`. -/
def tagClauseDec (tags : Option (List String)) (e : Event) :
    Decidable (match tags with
      | some (t :: rest) => ∃ x ∈ e.tags.getD [], x ∈ t :: rest
      | _ => True) :=
  match tags with
  | none => isTrue trivial
  | some [] => isTrue trivial
  | some (_ :: _) => inferInstance

/-- Decidability of the start-bound clause of `specListMatch`. -/
def startClauseDec (start_date : Option Int) (e : Event) :
    Decidable (match start_date with
      | some s => s ≤ e.timestamp
      | none => True) :=
  match start_date with
  | none => isTrue trivial
  | some _ => inferInstance

/-- Decidability of the end-bound clause of `specListMatch`. -/
def endClauseDec (end_date : Option Int) (e : Event) :
    Decidable (match end_date with
      | some en => e.timestamp ≤ en
      | none => True) :=
  match end_date with
  | none => isTrue trivial
  | some _ => inferInstance

/-- Decidability of the text clause of `specListMatch`. -/
def queryClauseDec (query : Option String) (e : Event) :
    Decidable (match query with
      | some q => q = "" ∨ ilikeText q e = true
      | none => True) :=
  match query with
  | none => isTrue trivial
  | some _ => inferInstance

instance (query : Option String) (tags : Option (List String))
    (start_date end_date : Option Int) (e : Event) :
    Decidable (specListMatch query tags start_date end_date e) :=
  @instDecidableAnd _ _ (tagClauseDec tags e)
    (@instDecidableAnd _ _ (startClauseDec start_date e)
      (@instDecidableAnd _ _ (endClauseDec end_date e) (queryClauseDec query e)))

/-- Two events with the same timestamp and increasing ids, stored in
id-ascending row order. -/
def c2a : Event :=
  { id := 1, created_at := 0, timestamp := 5, title := "a",
    description := none, tags := none, metadata_json := none }

def c2b : Event :=
  { id := 2, created_at := 0, timestamp := 5, title := "b",
    description := none, tags := none, metadata_json := none }

/-- An event whose single-character title matches the ILIKE pattern of the
one-character query made of an SQL wildcard. -/
def c4x : Event :=
  { id := 1, created_at := 0, timestamp := 0, title := "x",
    description := none, tags := none, metadata_json := none }

/-- An event matching all concrete filters of the C4 witness call. -/
def c4w : Event :=
  { id := 1, created_at := 0, timestamp := 3, title := "Hello",
    description := none, tags := some ["a"], metadata_json := none }

/-!  Helper facts about the upload loop and the compensation loop. -/

/-- A file passing both per-file validations of the upload loop. -/
def validFile (cfg : Settings) (f : UploadFile) : Bool :=
  cfg.ALLOWED_MIME_TYPES.contains f.content_type &&
    decide (f.content.length ≤ cfg.FILE_MAX_BYTES)

/-- The metadata rows staged by the loop for a run of valid files whose
first file has batch index `i`. -/
def stagedRows (ks : Nat → String) (eid : Nat) :
    List UploadFile → Nat → List PendingAtt
  | [], _ => []
  | f :: fs, i =>
    { event_id := eid, key := ks i, filename := f.filename,
      content_type := f.content_type, size_bytes := f.content.length } ::
      stagedRows ks eid fs (i + 1)

/-- The validation error raised for an invalid file (the type check comes
before the size check). -/
def errOf (cfg : Settings) (f : UploadFile) : UploadError :=
  if !(cfg.ALLOWED_MIME_TYPES.contains f.content_type) then
    .unsupportedType f.content_type
  else .tooLarge f.filename

/-- Folding storage deletes over a key list, in order. -/
def eraseKeys : List String → Storage → Storage
  | [], sto => sto
  | k :: rest, sto => eraseKeys rest (sto.erase k)

/-!  Concrete fixtures used by counterexamples and witnesses. -/

def exEvent : Event :=
  { id := 1, created_at := 0, timestamp := 0, title := "t",
    description := some "d", tags := some ["x"], metadata_json := some [("k", "v")] }

def exDB : DB := { events := [exEvent], attachments := [], nextAttachmentId := 1 }

def exKeys : Nat → String := fun i => "key" ++ toString i

def exGood : UploadFile :=
  { filename := "a.txt", content_type := "text/plain", content := [104, 105] }

def exBad : UploadFile :=
  { filename := "b.bin", content_type := "application/octet-stream", content := [0] }

def exAtt (i : Nat) : Attachment :=
  { id := i, event_id := 1, key := "old" ++ toString i, filename := "f",
    content_type := "text/plain", size_bytes := 1, uploaded_at := 0 }

/-- A database whose single event already has max-1 = 9 attachments. -/
def exDB9 : DB :=
  { events := [exEvent], attachments := (List.range 9).map exAtt,
    nextAttachmentId := 10 }

/-- A partial body that explicitly nulls the three nullable fields. -/
def exUpdNull : EventUpdate :=
  { title := none, description := some none, tags := some none,
    timestamp := none, metadata_json := some none }

theorem tagClause_iff (tags : Option (List String)) (e : Event) :
    (match tags with
     | none => true
     | some [] => true
     | some fil => tagsOverlap e.tags fil) = true ↔
      (match tags with
       | some (t :: rest) => ∃ x ∈ e.tags.getD [], x ∈ t :: rest
       | _ => True) := by
  rcases tags with _ | fil
  · simp
  · rcases fil with _ | ⟨t, rest⟩
    · simp
    · cases h : e.tags with
      | none => simp [tagsOverlap, h]
      | some ts => simp [tagsOverlap, h]

theorem startClause_iff (start_date : Option Int) (e : Event) :
    (match start_date with
     | none => true
     | some s => decide (s ≤ e.timestamp)) = true ↔
      (match start_date with
       | some s => s ≤ e.timestamp
       | none => True) := by
  rcases start_date with _ | s <;> simp

theorem endClause_iff (end_date : Option Int) (e : Event) :
    (match end_date with
     | none => true
     | some en => decide (e.timestamp ≤ en)) = true ↔
      (match end_date with
       | some en => e.timestamp ≤ en
       | none => True) := by
  rcases end_date with _ | en <;> simp

theorem queryClause_iff (query : Option String) (e : Event) :
    (match query with
     | none => true
     | some q => if q = "" then true else ilikeText q e) = true ↔
      (match query with
       | some q => q = "" ∨ ilikeText q e = true
       | none => True) := by
  rcases query with _ | q
  · simp
  · by_cases hq : q = "" <;> simp [hq]

/-- The WHERE clause built by the code agrees pointwise with the spec-side
filter predicate. -/
theorem matchesFilters_iff_specListMatch (query : Option String)
    (tags : Option (List String)) (start_date end_date : Option Int)
    (e : Event) :
    matchesFilters query tags start_date end_date e = true ↔
      specListMatch query tags start_date end_date e := by
  unfold matchesFilters specListMatch
  simp only [Bool.and_eq_true]
  rw [tagClause_iff, startClause_iff, endClause_iff, queryClause_iff]
  tauto

/-- C2 (amended): every List page is sorted by timestamp — descending under
NEWEST and ascending under OLDEST.  The query orders by timestamp only, so
equal timestamps keep the underlying row order and are not tie-broken by
id (see the counterexample theorem). -/
theorem listEvents_page_sorted_by_timestamp (rows : List Event)
    (skip limit : Nat) (query : Option String) (tags : Option (List String))
    (start_date end_date : Option Int) :
    List.Sorted newestRel
      (list_events rows skip limit query tags start_date end_date .newest).1 ∧
    List.Sorted oldestRel
      (list_events rows skip limit query tags start_date end_date .oldest).1 := by
  constructor <;>
    exact List.Pairwise.sublist
      ((List.take_sublist _ _).trans (List.drop_sublist _ _))
      (List.sorted_insertionSort _ _)

/-- C2 counterexample: under NEWEST, two events with equal timestamps come
back in row order (id ascending here), so the page is not sorted by the
claimed (timestamp descending, then id descending) order. -/
theorem listEvents_ties_not_id_descending :
    (list_events [c2a, c2b] 0 10 none none none none .newest).1 = [c2a, c2b] ∧
    ¬ List.Sorted
        (fun a b : Event =>
          b.timestamp < a.timestamp ∨ (b.timestamp = a.timestamp ∧ b.id ≤ a.id))
        (list_events [c2a, c2b] 0 10 none none none none .newest).1 := by
  constructor
  · decide
  · decide

/-- The code-side row filter equals the (decidable) spec-side predicate as a
Bool-valued function. -/
theorem matchesFilters_eq_decide_spec (query : Option String)
    (tags : Option (List String)) (start_date end_date : Option Int) :
    matchesFilters query tags start_date end_date =
      (fun e => decide (specListMatch query tags start_date end_date e)) := by
  funext e
  by_cases h : specListMatch query tags start_date end_date e
  · simp [h, (matchesFilters_iff_specListMatch query tags start_date end_date e).2 h]
  · have hm : matchesFilters query tags start_date end_date e = false :=
      Bool.not_eq_true _ ▸ (fun hc =>
        h ((matchesFilters_iff_specListMatch query tags start_date end_date e).1 hc))
    simp [h, hm]

/-- The matcher's behaviour on a pattern headed by an ordinary character:
it must match the first character of the string literally. -/
theorem likeMatch_cons_lit (c : Char) (p s : List Char)
    (hc1 : c ≠ '%') (hc2 : c ≠ '_') (hc3 : c ≠ '\\') :
    likeMatch (c :: p) s =
      match s with
      | [] => false
      | c2 :: s2 => (c2 == c && likeMatch p s2) := by
  rw [likeMatch.eq_def]
  split
  · rename_i heq
    simp at heq
  · rename_i p2 heq
    injection heq with h1 _
    exact absurd h1 hc1
  · rename_i p2 heq
    injection heq with h1 _
    exact absurd h1 hc2
  · rename_i c2 p2 heq
    injection heq with h1 _
    exact absurd h1 hc3
  · rename_i c2 p2 hn1 hn2 hn3 heq
    injection heq with h1 h2
    rw [h1, h2]

/-- A wildcard-free pattern followed by a final `%` matches exactly the
strings it prefixes. -/
theorem likeMatch_lit_append_pct :
    ∀ (q : List Char), (∀ c ∈ q, c ≠ '%' ∧ c ≠ '_' ∧ c ≠ '\\') →
      ∀ s, (likeMatch (q ++ ['%']) s = true ↔ q <+: s)
  | [], _, s => by
    simp only [List.nil_append, List.nil_prefix, iff_true]
    simp only [likeMatch, List.any_eq_true]
    exact ⟨[], (List.mem_tails _ _).2 List.nil_suffix, rfl⟩
  | c :: q, h, s => by
    have hc := h c (List.mem_cons_self c q)
    rw [List.cons_append, likeMatch_cons_lit c (q ++ ['%']) s hc.1 hc.2.1 hc.2.2]
    cases s with
    | nil => simp
    | cons c2 s2 =>
      rw [List.cons_prefix_cons]
      have ih := likeMatch_lit_append_pct q
        (fun x hx => h x (List.mem_cons_of_mem c hx)) s2
      constructor
      · intro hm
        rw [Bool.and_eq_true, beq_iff_eq] at hm
        exact ⟨hm.1.symm, ih.1 hm.2⟩
      · rintro ⟨rfl, hp⟩
        rw [Bool.and_eq_true, beq_iff_eq]
        exact ⟨rfl, ih.2 hp⟩

/-- A leading `%` matches exactly when the remaining pattern matches some
suffix. -/
theorem likeMatch_pct_head (p s : List Char) :
    likeMatch ('%' :: p) s = true ↔ ∃ t, t <:+ s ∧ likeMatch p t = true := by
  simp only [likeMatch, List.any_eq_true]
  constructor
  · rintro ⟨t, ht, hm⟩
    exact ⟨t, (List.mem_tails _ _).1 ht, hm⟩
  · rintro ⟨t, ht, hm⟩
    exact ⟨t, (List.mem_tails _ _).2 ht, hm⟩

/-- For a query free of the LIKE metacharacters, the pattern the code
builds matches exactly the strings containing the query. -/
theorem likeMatch_pct_iff (q s : List Char)
    (h : ∀ c ∈ q, c ≠ '%' ∧ c ≠ '_' ∧ c ≠ '\\') :
    (likeMatch ('%' :: (q ++ ['%'])) s = true ↔ q <:+: s) := by
  rw [likeMatch_pct_head, List.infix_iff_prefix_suffix]
  constructor
  · rintro ⟨t, hts, hm⟩
    exact ⟨t, (likeMatch_lit_append_pct q h t).1 hm, hts⟩
  · rintro ⟨t, hpt, hts⟩
    exact ⟨t, hts, (likeMatch_lit_append_pct q h t).2 hpt⟩

/-- For queries whose (case-folded) characters include none of the LIKE
metacharacters, the code's ILIKE text filter is exactly the spec's
case-insensitive substring match against title or description. -/
theorem ilikeText_iff_substr (q : String) (e : Event)
    (hq : ∀ c ∈ lowerChars q.toList, c ≠ '%' ∧ c ≠ '_' ∧ c ≠ '\\') :
    (ilikeText q e = true ↔ specTextSubstr q e) := by
  unfold ilikeText specTextSubstr
  dsimp only
  have hpct : Char.toLower '%' = '%' := rfl
  have hpat : lowerChars ('%' :: (q.toList ++ ['%'])) =
      '%' :: (lowerChars q.toList ++ ['%']) := by
    simp [lowerChars, hpct]
  rw [hpat, Bool.or_eq_true, likeMatch_pct_iff _ _ hq]
  cases hd : e.description with
  | none =>
    constructor
    · rintro (h1 | h2)
      · exact Or.inl h1
      · exact absurd h2 (by simp)
    · rintro (h1 | ⟨d, hdd, _⟩)
      · exact Or.inl h1
      · exact Option.noConfusion hdd
  | some d =>
    rw [likeMatch_pct_iff _ _ hq]
    constructor
    · rintro (h1 | h2)
      · exact Or.inl h1
      · exact Or.inr ⟨d, rfl, h2⟩
    · rintro (h1 | ⟨d2, hdd, h2⟩)
      · exact Or.inl h1
      · refine Or.inr ?_
        injection hdd with h3
        rw [h3]
        exact h2

/-- C4 (amended): every event on a page satisfies the spec-side filter
predicate (tag-set intersection, inclusive bounds, text match as the ILIKE
pattern the code issues); total_count equals the number of events satisfying
that same predicate, whatever skip/limit are; with pagination wide open the
page is exactly the filtered set; and for queries free of the LIKE
metacharacters the text match is precisely the spec's case-insensitive
substring match. -/
theorem listEvents_filter_count_consistent (rows : List Event)
    (skip limit : Nat) (query : Option String) (tags : Option (List String))
    (start_date end_date : Option Int) (sort : SortOrder) :
    (∀ e ∈ (list_events rows skip limit query tags start_date end_date sort).1,
        specListMatch query tags start_date end_date e) ∧
    (list_events rows skip limit query tags start_date end_date sort).2 =
      rows.countP (fun e => decide (specListMatch query tags start_date end_date e)) ∧
    (list_events rows 0 rows.length query tags start_date end_date sort).1.Perm
      (rows.filter (fun e => decide (specListMatch query tags start_date end_date e))) ∧
    (∀ (q2 : String) (e2 : Event),
      (∀ c ∈ lowerChars q2.toList, c ≠ '%' ∧ c ≠ '_' ∧ c ≠ '\\') →
      (ilikeText q2 e2 = true ↔ specTextSubstr q2 e2)) := by
  refine ⟨?_, ?_, ?_, fun q2 e2 hq2 => ilikeText_iff_substr q2 e2 hq2⟩
  · intro e he
    unfold list_events at he
    have hs : e ∈ rows.filter (matchesFilters query tags start_date end_date) := by
      cases sort <;>
        exact (List.mem_insertionSort _).1
          (((List.take_sublist _ _).trans (List.drop_sublist _ _)).mem he)
    exact (matchesFilters_iff_specListMatch query tags start_date end_date e).1
      (List.mem_filter.1 hs).2
  · unfold list_events
    rw [← matchesFilters_eq_decide_spec, List.countP_eq_length_filter]
  · rw [← matchesFilters_eq_decide_spec]
    cases sort <;>
    · simp only [list_events, List.drop_zero]
      rw [List.take_of_length_le
        (by rw [List.length_insertionSort]; exact List.length_filter_le _ _)]
      exact List.perm_insertionSort _ _

/-- C4 counterexample: the query is interpolated into the ILIKE pattern
unescaped, so a query of a single underscore matches the title "x", which
does not contain the underscore as a substring — the text filter is not a
pure case-insensitive substring match. -/
theorem listEvents_text_query_not_substring :
    (list_events [c4x] 0 1 (some "_") none none none .newest).1 = [c4x] ∧
    ¬ specTextSubstr "_" c4x := by
  constructor
  · decide
  · rintro (h | ⟨d, hd, _⟩)
    · exact absurd h (by decide)
    · exact Option.noConfusion hd

theorem listEvents_filter_count_consistent_witness :
    specListMatch (some "ell") (some ["a", "b"]) (some 1) (some 5) c4w ∧
    (list_events [c4w] 2 7 (some "ell") (some ["a", "b"]) (some 1) (some 5)
        .newest).2 =
      List.countP
        (fun e => decide (specListMatch (some "ell") (some ["a", "b"])
          (some 1) (some 5) e)) [c4w] ∧
    specTextSubstr "ell" c4w :=
  ⟨(listEvents_filter_count_consistent [c4w] 0 1 (some "ell") (some ["a", "b"])
      (some 1) (some 5) .newest).1 c4w (by decide),
   (listEvents_filter_count_consistent [c4w] 2 7 (some "ell") (some ["a", "b"])
      (some 1) (some 5) .newest).2.1,
   ((listEvents_filter_count_consistent [c4w] 0 1 (some "ell") (some ["a", "b"])
      (some 1) (some 5) .newest).2.2.2 "ell" c4w (by decide)).1 (by decide)⟩

/-- C9: an empty text query and an empty tag list are each dropped before
the WHERE clause is built (`if query:` / `if tags:` are falsy), so they are
no filters at all: the List result is identical to the unfiltered call. -/
theorem listEvents_empty_query_empty_tags_no_filter (rows : List Event)
    (skip limit : Nat) (start_date end_date : Option Int) (sort : SortOrder) :
    (∀ tags, list_events rows skip limit (some "") tags start_date end_date sort =
        list_events rows skip limit none tags start_date end_date sort) ∧
    (∀ query, list_events rows skip limit query (some []) start_date end_date sort =
        list_events rows skip limit query none start_date end_date sort) := by
  constructor
  · intro tags
    have h : matchesFilters (some "") tags start_date end_date =
        matchesFilters none tags start_date end_date := by
      funext e
      simp [matchesFilters]
    unfold list_events
    rw [h]
  · intro query
    have h : matchesFilters query (some []) start_date end_date =
        matchesFilters query none start_date end_date := by
      funext e
      simp [matchesFilters]
    unfold list_events
    rw [h]

theorem stagedRows_length (ks : Nat → String) (eid : Nat) :
    ∀ (fs : List UploadFile) (i : Nat),
      (stagedRows ks eid fs i).length = fs.length
  | [], _ => rfl
  | f :: fs, i => by
    simp [stagedRows, stagedRows_length ks eid fs (i + 1)]

/-- On a batch of valid files the loop uploads every file (consing its key
onto the store) and stages one row per file. -/
theorem processFiles_ok (cfg : Settings) (ks : Nat → String) (eid : Nat) :
    ∀ (fs : List UploadFile) (i : Nat) (sto : Storage),
      (∀ f ∈ fs, validFile cfg f = true) →
      processFiles cfg ks eid fs i sto =
        (.ok (stagedRows ks eid fs i),
         ((stagedRows ks eid fs i).map (fun a => a.key)).reverse ++ sto)
  | [], _, sto, _ => by simp [processFiles, stagedRows]
  | f :: fs, i, sto, h => by
    have hf := h f (List.mem_cons_self f fs)
    rw [validFile, Bool.and_eq_true] at hf
    rw [processFiles, if_neg (by rw [hf.1]; decide),
      if_neg (Nat.not_lt.2 (of_decide_eq_true hf.2)),
      processFiles_ok cfg ks eid fs (i + 1) (ks i :: sto)
        (fun g hg => h g (List.mem_cons_of_mem f hg))]
    simp [stagedRows, List.append_assoc]

/-- If the batch has an invalid file, the loop uploads the files before the
first invalid one, then aborts with that file's validation error, leaving
the already-uploaded objects in the store. -/
theorem processFiles_firstInvalid (cfg : Settings) (ks : Nat → String)
    (eid : Nat) :
    ∀ (pre : List UploadFile) (f : UploadFile) (rest : List UploadFile)
      (i : Nat) (sto : Storage),
      (∀ g ∈ pre, validFile cfg g = true) → validFile cfg f = false →
      processFiles cfg ks eid (pre ++ f :: rest) i sto =
        (.error (errOf cfg f),
         ((stagedRows ks eid pre i).map (fun a => a.key)).reverse ++ sto)
  | [], f, rest, i, sto, _, hf => by
    cases h1 : cfg.ALLOWED_MIME_TYPES.contains f.content_type with
    | false =>
      rw [List.nil_append, processFiles, if_pos (by rw [h1]; decide), errOf,
        if_pos (by rw [h1]; decide)]
      simp [stagedRows]
    | true =>
      rw [validFile, h1, Bool.true_and] at hf
      rw [List.nil_append, processFiles, if_neg (by rw [h1]; decide),
        if_pos (Nat.not_le.1 (of_decide_eq_false hf)), errOf,
        if_neg (by rw [h1]; decide)]
      simp [stagedRows]
  | g :: pre, f, rest, i, sto, hpre, hf => by
    have hg := hpre g (List.mem_cons_self g pre)
    rw [validFile, Bool.and_eq_true] at hg
    rw [List.cons_append, processFiles, if_neg (by rw [hg.1]; decide),
      if_neg (Nat.not_lt.2 (of_decide_eq_true hg.2)),
      processFiles_firstInvalid cfg ks eid pre f rest (i + 1) (ks i :: sto)
        (fun x hx => hpre x (List.mem_cons_of_mem g hx)) hf]
    simp [stagedRows, List.append_assoc]

/-- When every delete succeeds, the cleanup loop erases every staged key, in
order, and reports no failure. -/
theorem compensate_ok (deleteOk : String → Bool) :
    ∀ (pend : List PendingAtt) (sto : Storage),
      (∀ a ∈ pend, deleteOk a.key = true) →
      compensate deleteOk pend sto =
        (none, eraseKeys (pend.map (fun a => a.key)) sto)
  | [], sto, _ => by simp [compensate, eraseKeys]
  | a :: rest, sto, h => by
    rw [compensate, if_pos (h a (List.mem_cons_self a rest)),
      compensate_ok deleteOk rest (sto.erase a.key)
        (fun b hb => h b (List.mem_cons_of_mem a hb))]
    simp [eraseKeys]

/-- The first failing delete stops the cleanup loop: its key is reported,
and only the keys before it have been erased. -/
theorem compensate_firstFail (deleteOk : String → Bool) :
    ∀ (p1 : List PendingAtt) (a : PendingAtt) (p2 : List PendingAtt)
      (sto : Storage),
      (∀ b ∈ p1, deleteOk b.key = true) → deleteOk a.key = false →
      compensate deleteOk (p1 ++ a :: p2) sto =
        (some a.key, eraseKeys (p1.map (fun b => b.key)) sto)
  | [], a, p2, sto, _, ha => by
    rw [List.nil_append, compensate, if_neg (by simp [ha])]
    simp [eraseKeys]
  | b :: p1, a, p2, sto, hp, ha => by
    rw [List.cons_append, compensate,
      if_pos (hp b (List.mem_cons_self b p1)),
      compensate_firstFail deleteOk p1 a p2 (sto.erase b.key)
        (fun x hx => hp x (List.mem_cons_of_mem b hx)) ha]
    simp [eraseKeys]

/-- Erasing a run of pairwise-distinct keys undoes consing them (erase
removes the copy the uploads added, even if an equal key sits deeper in the
store). -/
theorem eraseKeys_reverse_append :
    ∀ (keys : List String) (sto : Storage), keys.Nodup →
      eraseKeys keys (keys.reverse ++ sto) = sto
  | [], sto, _ => by simp [eraseKeys]
  | k :: rest, sto, h => by
    have h2 := List.nodup_cons.1 h
    rw [List.reverse_cons, List.append_assoc, eraseKeys,
      List.erase_append_right _ (fun hk => h2.1 (List.mem_reverse.1 hk)),
      List.singleton_append, List.erase_cons_head]
    exact eraseKeys_reverse_append rest sto h2.2

/-- Every batch either consists only of valid files or has a first invalid
file. -/
theorem batch_valid_or_firstInvalid (cfg : Settings) :
    ∀ fs : List UploadFile,
      (∀ f ∈ fs, validFile cfg f = true) ∨
      ∃ pre f rest, fs = pre ++ f :: rest ∧
        (∀ g ∈ pre, validFile cfg g = true) ∧ validFile cfg f = false
  | [] => Or.inl (by simp)
  | f :: fs => by
    cases h : validFile cfg f with
    | false => exact Or.inr ⟨[], f, fs, by simp, by simp, h⟩
    | true =>
      rcases batch_valid_or_firstInvalid cfg fs with hall | ⟨pre, g, rest, heq, hpre, hg⟩
      · refine Or.inl (fun x hx => ?_)
        rcases List.mem_cons.1 hx with rfl | hx
        · exact h
        · exact hall x hx
      · refine Or.inr ⟨f :: pre, g, rest, by rw [heq, List.cons_append], ?_, hg⟩
        intro x hx
        rcases List.mem_cons.1 hx with rfl | hx
        · exact h
        · exact hpre x hx

/-- C1 (amended): a batch containing an invalid file is rejected with the
first invalid file's validation error and no metadata row is committed, but
because validation is interleaved with upload (per file, in input order),
every file preceding the first invalid one has already been uploaded: the
store is left with exactly one new object per preceding file. -/
theorem uploadBatch_invalid_rejects_but_leaks_prior_uploads
    (cfg : Settings) (db : DB) (sto : Storage) (ks : Nat → String)
    (commitOk : Bool) (deleteOk : String → Bool) (now : Int) (eid : Nat)
    (files : List UploadFile) (ev : Event) (pre : List UploadFile)
    (f : UploadFile) (rest : List UploadFile)
    (hev : get_event db eid = some ev)
    (hquota : (eventAttachments db eid).length + files.length ≤
      cfg.ATTACHMENT_MAX_PER_EVENT)
    (hsplit : files = pre ++ f :: rest)
    (hpre : ∀ g ∈ pre, validFile cfg g = true)
    (hf : validFile cfg f = false) :
    upload_attachments cfg db sto ks commitOk deleteOk now eid files =
      (.error (errOf cfg f), db,
       ((stagedRows ks eid pre 0).map (fun a => a.key)).reverse ++ sto) ∧
    (((stagedRows ks eid pre 0).map (fun a => a.key)).reverse ++ sto).length =
      pre.length + sto.length := by
  constructor
  · unfold upload_attachments
    rw [hev]
    dsimp only
    rw [if_neg (Nat.not_lt.2 (hsplit ▸ hquota)), hsplit,
      processFiles_firstInvalid cfg ks eid pre f rest 0 sto hpre hf]
  · simp [stagedRows_length]

theorem uploadBatch_invalid_rejects_witness :
    upload_attachments defaultSettings exDB [] exKeys true (fun _ => true) 0 1
        [exGood, exBad] =
      (.error (errOf defaultSettings exBad), exDB,
       ((stagedRows exKeys 1 [exGood] 0).map (fun a => a.key)).reverse ++ []) ∧
    (((stagedRows exKeys 1 [exGood] 0).map (fun a => a.key)).reverse ++
        ([] : Storage)).length = List.length [exGood] + List.length ([] : Storage) :=
  uploadBatch_invalid_rejects_but_leaks_prior_uploads defaultSettings exDB []
    exKeys true (fun _ => true) 0 1 [exGood, exBad] exEvent [exGood] exBad []
    rfl (by decide) rfl (by decide) (by decide)

/-- C1 counterexample: with one valid file followed by one file of a
disallowed type, the batch is rejected and no metadata row is created, but
the first file's object ("key0") is left in the previously empty store —
not the claimed zero net objects, and the first upload happened before the
second file was validated. -/
theorem uploadBatch_leaked_object_counterexample :
    upload_attachments defaultSettings exDB [] exKeys true (fun _ => true) 0 1
        [exGood, exBad] =
      (.error (.unsupportedType "application/octet-stream"), exDB, ["key0"]) ∧
    ("key0" :: ([] : Storage)) ≠ [] := by
  exact ⟨rfl, by decide⟩

/-- C3 (amended): after an all-valid batch whose metadata transaction fails,
compensation deletes the uploaded objects in batch order.  When all deletes
succeed the store is restored and a PersistenceError surfaces.  But the
cleanup loop has no exception handling: the first failing delete escalates
in place of the PersistenceError and the objects from that point on are not
deleted (and nothing is logged). -/
theorem uploadBatch_commit_failure_compensation
    (cfg : Settings) (db : DB) (sto : Storage) (ks : Nat → String)
    (deleteOk : String → Bool) (now : Int) (eid : Nat)
    (files : List UploadFile) (ev : Event)
    (hev : get_event db eid = some ev)
    (hquota : (eventAttachments db eid).length + files.length ≤
      cfg.ATTACHMENT_MAX_PER_EVENT)
    (hvalid : ∀ f ∈ files, validFile cfg f = true) :
    ((∀ a ∈ stagedRows ks eid files 0, deleteOk a.key = true) →
      ((stagedRows ks eid files 0).map (fun a => a.key)).Nodup →
      upload_attachments cfg db sto ks false deleteOk now eid files =
        (.error .persistence, db, sto)) ∧
    (∀ p1 a p2, stagedRows ks eid files 0 = p1 ++ a :: p2 →
      (∀ b ∈ p1, deleteOk b.key = true) → deleteOk a.key = false →
      upload_attachments cfg db sto ks false deleteOk now eid files =
        (.error (.storageDeleteFailed a.key), db,
         eraseKeys (p1.map (fun b => b.key))
           (((stagedRows ks eid files 0).map (fun a => a.key)).reverse ++ sto))) := by
  constructor
  · intro hdel hnodup
    unfold upload_attachments
    rw [hev]
    dsimp only
    rw [if_neg (Nat.not_lt.2 hquota), processFiles_ok cfg ks eid files 0 sto hvalid]
    dsimp only
    rw [compensate_ok deleteOk _ _ hdel, eraseKeys_reverse_append _ _ hnodup]
    rfl
  · intro p1 a p2 heq hp1 ha
    unfold upload_attachments
    rw [hev]
    dsimp only
    rw [if_neg (Nat.not_lt.2 hquota), processFiles_ok cfg ks eid files 0 sto hvalid]
    dsimp only
    rw [heq, compensate_firstFail deleteOk p1 a p2 _ hp1 ha]
    rfl

theorem uploadBatch_commit_failure_compensation_witness :
    upload_attachments defaultSettings exDB [] exKeys false (fun _ => true) 0 1
        [exGood, exGood] =
      (.error .persistence, exDB, []) :=
  (uploadBatch_commit_failure_compensation defaultSettings exDB [] exKeys
      (fun _ => true) 0 1 [exGood, exGood] exEvent rfl (by decide)
      (by decide)).1 (by decide) (by decide)

/-- C3 counterexample: both files upload, the commit fails, and the delete
of the first object fails.  The surfaced error is the storage-delete
failure, not PersistenceError (the original error is masked), and both
objects — including the second one, never attempted — are still in the
store. -/
theorem uploadBatch_compensation_failure_masks_error :
    upload_attachments defaultSettings exDB [] exKeys false
        (fun k => k != "key0") 0 1 [exGood, exGood] =
      (.error (.storageDeleteFailed "key0"), exDB, ["key1", "key0"]) ∧
    UploadError.storageDeleteFailed "key0" ≠ UploadError.persistence ∧
    (["key1", "key0"] : Storage) ≠ [] := by
  exact ⟨rfl, by decide, by decide⟩

/-- C5: on an existing event the quota check passes iff
existing + batch size ≤ the configured maximum: over-quota batches are
rejected wholesale with nothing created; at the boundary (max-1 existing)
one more valid file succeeds while two more files are rejected with
QuotaExceeded and no object or row is created. -/
theorem uploadBatch_quota_check
    (cfg : Settings) (db : DB) (sto : Storage) (ks : Nat → String)
    (commitOk : Bool) (deleteOk : String → Bool) (now : Int) (eid : Nat)
    (files : List UploadFile) (ev : Event)
    (hev : get_event db eid = some ev) :
    (cfg.ATTACHMENT_MAX_PER_EVENT < (eventAttachments db eid).length + files.length →
      upload_attachments cfg db sto ks commitOk deleteOk now eid files =
        (.error .quotaExceeded, db, sto)) ∧
    ((eventAttachments db eid).length + files.length ≤ cfg.ATTACHMENT_MAX_PER_EVENT →
      (upload_attachments cfg db sto ks commitOk deleteOk now eid files).1 ≠
        .error .quotaExceeded) ∧
    ((eventAttachments db eid).length + 1 = cfg.ATTACHMENT_MAX_PER_EVENT →
      ∀ f, validFile cfg f = true →
        ∃ att, (upload_attachments cfg db sto ks true deleteOk now eid [f]).1 =
          .ok [att]) ∧
    ((eventAttachments db eid).length + 1 = cfg.ATTACHMENT_MAX_PER_EVENT →
      ∀ f1 f2, upload_attachments cfg db sto ks commitOk deleteOk now eid [f1, f2] =
        (.error .quotaExceeded, db, sto)) := by
  refine ⟨?_, ?_, ?_, ?_⟩
  · intro hlt
    unfold upload_attachments
    rw [hev]
    dsimp only
    rw [if_pos hlt]
  · intro hle
    unfold upload_attachments
    rw [hev]
    dsimp only
    rw [if_neg (Nat.not_lt.2 hle)]
    rcases batch_valid_or_firstInvalid cfg files with hall | ⟨pre, f, rest, heq, hpre, hf⟩
    · rw [processFiles_ok cfg ks eid files 0 sto hall]
      dsimp only
      cases commitOk with
      | true => simp
      | false =>
        rcases hc : compensate deleteOk (stagedRows ks eid files 0)
          (((stagedRows ks eid files 0).map (fun a => a.key)).reverse ++ sto) with ⟨o, st3⟩
        cases o <;> simp
    · rw [heq, processFiles_firstInvalid cfg ks eid pre f rest 0 sto hpre hf]
      dsimp only
      unfold errOf
      split <;> simp
  · intro hmax f hvf
    unfold upload_attachments
    rw [hev]
    dsimp only
    rw [if_neg (by simp only [List.length_singleton]; omega),
      processFiles_ok cfg ks eid [f] 0 sto (by simpa using hvf)]
    exact ⟨_, rfl⟩
  · intro hmax f1 f2
    unfold upload_attachments
    rw [hev]
    dsimp only
    rw [if_pos (by simp only [List.length_cons, List.length_nil]; omega)]

theorem uploadBatch_quota_check_witness :
    (∃ att, (upload_attachments defaultSettings exDB9 [] exKeys true
        (fun _ => true) 0 1 [exGood]).1 = .ok [att]) ∧
    upload_attachments defaultSettings exDB9 [] exKeys true (fun _ => true) 0 1
        [exGood, exGood] =
      (.error .quotaExceeded, exDB9, []) :=
  ⟨(uploadBatch_quota_check defaultSettings exDB9 [] exKeys true (fun _ => true)
      0 1 [exGood] exEvent rfl).2.2.1 (by decide) exGood (by decide),
   (uploadBatch_quota_check defaultSettings exDB9 [] exKeys true (fun _ => true)
      0 1 [exGood] exEvent rfl).2.2.2 (by decide) exGood exGood⟩

/-- Applying an empty partial body changes nothing on the row. -/
theorem applyUpdate_empty (e : Event) : applyUpdate emptyUpdate e = e := rfl

/-- C6: deleting an existing event removes the event row and all of its
attachment rows (cascade), after which Get returns NotFound and the
presigned-URL lookup of each former attachment key returns NotFound (the
attachments table holds unique keys, per its UNIQUE constraint); deleting a
non-existent id reports NotFound and changes neither store. -/
theorem deleteEvent_cascade_then_not_found (db : DB) (sto : Storage)
    (deleteOk : String → Bool) (eid : Nat) :
    (get_event db eid = none →
      delete_event db sto deleteOk eid = (false, db, sto)) ∧
    (∀ ev, get_event db eid = some ev →
      (delete_event db sto deleteOk eid).1 = true ∧
      eventAttachments (delete_event db sto deleteOk eid).2.1 eid = [] ∧
      get_event (delete_event db sto deleteOk eid).2.1 eid = none ∧
      ((db.attachments.map (fun a => a.key)).Nodup →
        ∀ a ∈ eventAttachments db eid,
          get_attachment_url (delete_event db sto deleteOk eid).2.1 a.key = none)) := by
  constructor
  · intro h
    unfold delete_event
    rw [h]
  · intro ev h
    unfold delete_event
    rw [h]
    dsimp only
    refine ⟨rfl, ?_, ?_, ?_⟩
    · unfold eventAttachments
      dsimp only
      rw [List.filter_filter]
      have hfalse : ∀ x : Attachment,
          ((x.event_id == eid) && !(x.event_id == eid)) = false :=
        fun x => Bool.and_not_self _
      simp [hfalse]
    · unfold get_event
      dsimp only
      rw [List.find?_eq_none]
      intro x hx
      simpa using (List.mem_filter.1 hx).2
    · intro hnodup a ha
      unfold get_attachment_url
      dsimp only
      have hnone : (db.attachments.filter (fun b => !(b.event_id == eid))).find?
          (fun b => b.key == a.key) = none := by
        rw [List.find?_eq_none]
        intro b hb hbk
        have hbmem := List.mem_filter.1 hb
        have hbne : ¬ b.event_id = eid := by simpa using hbmem.2
        have hamem := List.mem_filter.1 ha
        have haeq : a.event_id = eid := by simpa using hamem.2
        have hkey : b.key = a.key := by simpa using hbk
        have hba : b = a := List.inj_on_of_nodup_map hnodup hbmem.1 hamem.1 hkey
        exact hbne (hba ▸ haeq)
      rw [hnone]

theorem deleteEvent_cascade_witness :
    (delete_event exDB9 ["old0"] (fun _ => true) 1).1 = true ∧
    eventAttachments (delete_event exDB9 ["old0"] (fun _ => true) 1).2.1 1 = [] ∧
    get_event (delete_event exDB9 ["old0"] (fun _ => true) 1).2.1 1 = none ∧
    get_attachment_url (delete_event exDB9 ["old0"] (fun _ => true) 1).2.1
      (exAtt 3).key = none :=
  have h := (deleteEvent_cascade_then_not_found exDB9 ["old0"] (fun _ => true) 1).2
    exEvent rfl
  ⟨h.1, h.2.1, h.2.2.1, h.2.2.2 (by decide) (exAtt 3) (by decide)⟩

/-- C7: Update writes exactly the fields present in the partial body: every
absent field keeps its previous value, id and created_at are never touched,
and the empty partial leaves the event and the whole database unchanged. -/
theorem updateEvent_partial_frame (db : DB) (eid : Nat) (u : EventUpdate)
    (ev2 : Event) (db2 : DB)
    (h : update_event db eid u = some (ev2, db2)) :
    ∃ ev, get_event db eid = some ev ∧
      (u.title = none → ev2.title = ev.title) ∧
      (u.description = none → ev2.description = ev.description) ∧
      (u.tags = none → ev2.tags = ev.tags) ∧
      (u.timestamp = none → ev2.timestamp = ev.timestamp) ∧
      (u.metadata_json = none → ev2.metadata_json = ev.metadata_json) ∧
      ev2.id = ev.id ∧ ev2.created_at = ev.created_at ∧
      (u = emptyUpdate → ev2 = ev ∧ db2 = db) := by
  unfold update_event at h
  cases hev : get_event db eid with
  | none => rw [hev] at h; exact absurd h (by simp)
  | some e =>
    rw [hev] at h
    simp only [Option.some.injEq, Prod.mk.injEq] at h
    obtain ⟨rfl, rfl⟩ := h
    refine ⟨e, rfl, ?_, ?_, ?_, ?_, ?_, rfl, rfl, ?_⟩
    · intro ht; simp [applyUpdate, ht]
    · intro ht; simp [applyUpdate, ht]
    · intro ht; simp [applyUpdate, ht]
    · intro ht; simp [applyUpdate, ht]
    · intro ht; simp [applyUpdate, ht]
    · intro hu
      subst hu
      refine ⟨rfl, ?_⟩
      have hm : db.events.map
          (fun x => if x.id == eid then applyUpdate emptyUpdate x else x) =
          db.events := by
        simp [applyUpdate_empty]
      rw [hm]

theorem updateEvent_partial_frame_witness :
    ∃ ev, get_event exDB 1 = some ev ∧
      (emptyUpdate.title = none → exEvent.title = ev.title) ∧
      (emptyUpdate.description = none → exEvent.description = ev.description) ∧
      (emptyUpdate.tags = none → exEvent.tags = ev.tags) ∧
      (emptyUpdate.timestamp = none → exEvent.timestamp = ev.timestamp) ∧
      (emptyUpdate.metadata_json = none → exEvent.metadata_json = ev.metadata_json) ∧
      exEvent.id = ev.id ∧ exEvent.created_at = ev.created_at ∧
      (emptyUpdate = emptyUpdate → exEvent = ev ∧ exDB = exDB) :=
  updateEvent_partial_frame exDB 1 emptyUpdate exEvent exDB rfl

/-- C10: a field explicitly present in the partial body is written with the
given value — including an explicit null for the nullable columns
(description, tags, metadata), which clears the column — while an absent
field is left untouched: presence, not the value, decides the write. -/
theorem updateEvent_present_null_applied (db : DB) (eid : Nat)
    (u : EventUpdate) (ev2 : Event) (db2 : DB)
    (h : update_event db eid u = some (ev2, db2)) :
    (∀ v, u.description = some v → ev2.description = v) ∧
    (∀ v, u.tags = some v → ev2.tags = v) ∧
    (∀ v, u.metadata_json = some v → ev2.metadata_json = v) ∧
    (∀ v, u.title = some v → ev2.title = v) ∧
    (∀ v, u.timestamp = some v → ev2.timestamp = v) ∧
    ∃ ev, get_event db eid = some ev ∧
      (u.description = none → ev2.description = ev.description) ∧
      (u.tags = none → ev2.tags = ev.tags) ∧
      (u.metadata_json = none → ev2.metadata_json = ev.metadata_json) := by
  unfold update_event at h
  cases hev : get_event db eid with
  | none => rw [hev] at h; exact absurd h (by simp)
  | some e =>
    rw [hev] at h
    simp only [Option.some.injEq, Prod.mk.injEq] at h
    obtain ⟨rfl, rfl⟩ := h
    refine ⟨?_, ?_, ?_, ?_, ?_, e, rfl, ?_, ?_, ?_⟩
    · intro v hv; simp [applyUpdate, hv]
    · intro v hv; simp [applyUpdate, hv]
    · intro v hv; simp [applyUpdate, hv]
    · intro v hv; simp [applyUpdate, hv]
    · intro v hv; simp [applyUpdate, hv]
    · intro hv; simp [applyUpdate, hv]
    · intro hv; simp [applyUpdate, hv]
    · intro hv; simp [applyUpdate, hv]

theorem updateEvent_present_null_applied_witness :
    (applyUpdate exUpdNull exEvent).description = none ∧
    (applyUpdate exUpdNull exEvent).tags = none ∧
    (applyUpdate exUpdNull exEvent).metadata_json = none ∧
    exEvent.description = some "d" :=
  have h := updateEvent_present_null_applied exDB 1 exUpdNull _ _ rfl
  ⟨h.1 none rfl, h.2.1 none rfl, h.2.2.1 none rfl, rfl⟩

/-- C8: the export route orders every event newest-first with no pagination
but selects them without any eager-loading of the attachments relationship;
serializing the `EventRead` response model must read that relationship, and
on the async session the lazy access raises instead of loading.  Export
therefore errors whenever at least one event exists, instead of returning
the events with their attachments; only the empty dump succeeds. -/
theorem exportData_lazy_load_failure (db : DB) :
    export_data db =
      if db.events.isEmpty then .ok [] else .error .lazyLoadNotAllowed := by
  cases hev : db.events with
  | nil =>
    unfold export_data
    rw [hev]
    rfl
  | cons e l =>
    unfold export_data
    rw [hev]
    cases hs : List.insertionSort newestRel (e :: l) with
    | nil =>
      have hlen := List.length_insertionSort newestRel (e :: l)
      rw [hs] at hlen
      simp at hlen
    | cons x xs => rfl
